import Mathlib

/-!
Verification of `generate.py`, the OpenWebUI Docker-Compose generation agent.

The program is modelled over `List Char` (Python strings are sequences of
characters).  Python string primitives used by the source — `str.strip`,
`str.split(sep)`, `sep in s`, `str.startswith`, slicing — are embedded as
executable functions below, and the program's functions
(`load_env_vars`, `get_openai_key`, `load_documentation`, the system-prompt
assembly, the fenced-block extraction and the conversation loop of
`generate_docker_compose`, `main`) are translated on top of them.
-/

namespace OWUI

/-! ## Python string primitives -/

/-- Python whitespace characters recognised by `str.strip()` (ASCII range). -/
def isPySpace (c : Char) : Bool :=
  c = ' ' || c = '\t' || c = '\n' || c = '\x0d' || c = '\x0b' || c = '\x0c'

/-- Drop leading characters satisfying `p` (left part of Python `strip`). -/
def stripLeft (p : Char → Bool) (l : List Char) : List Char :=
  l.dropWhile p

/-- Drop trailing characters satisfying `p` (right part of Python `strip`). -/
def stripRight (p : Char → Bool) (l : List Char) : List Char :=
  (l.reverse.dropWhile p).reverse

/-- Python `str.strip(chars)`: drop characters satisfying `p` from both ends. -/
def pyStripBy (p : Char → Bool) (l : List Char) : List Char :=
  stripRight p (stripLeft p l)

/-- Python `str.strip()` with no argument: strip whitespace from both ends. -/
def pyStrip (l : List Char) : List Char := pyStripBy isPySpace l

/-- The characters of Python `strip('"\'')` in `load_env_vars`. -/
def isQuoteChar (c : Char) : Bool := c = '"' || c = '\''

/-- Index of the first occurrence of `sep` in `s` (Python `str.find`);
`none` when `sep` does not occur.  For nonempty `sep`, `s.split(sep)` is
determined by repeated use of this search. -/
def findSub (sep : List Char) : List Char → Option Nat
  | [] => if sep.isPrefixOf ([] : List Char) then some 0 else none
  | c :: rest =>
    if sep.isPrefixOf (c :: rest) then some 0
    else (findSub sep rest).map (· + 1)

/-- Python `sep in s` (substring containment). -/
def containsSub (sep s : List Char) : Bool := (findSub sep s).isSome

/-- The text after the first occurrence of `sep`: for nonempty `sep`
occurring in `s`, Python's `s.split(sep)` continues scanning here, so
`s.split(sep)[1] = beforeFirst sep (afterFirst sep s)`. -/
def afterFirst (sep s : List Char) : List Char :=
  match findSub sep s with
  | some i => s.drop (i + sep.length)
  | none => []

/-- The text before the first occurrence of `sep`, or all of `s` when `sep`
does not occur: this is `s.split(sep)[0]`. -/
def beforeFirst (sep s : List Char) : List Char :=
  match findSub sep s with
  | some i => s.take i
  | none => s

/-! ## Fence markers and output paths (`generate.py` lines 142-197) -/

def dcMarker : List Char := "```docker-compose".data

def envMarker : List Char := "```env".data

def yamlMarker : List Char := "```yaml".data

def fenceClose : List Char := "```".data

def composePath : String := "generated/docker-compose.yaml"

def envPath : String := "generated/.env.generated"

/-- The sentinel phrase whose appearance in a reply triggers finalization. -/
def sentinel : List Char := "I'll now generate your Docker Compose file".data

/-! ## Fenced-block extraction (`generate.py` lines 163-181)

In the source, `parts = s.split(m); parts[1].split("```")[0].strip()` is
computed when `m in s`; since Python's `split` scans left to right and
resumes after each match, `parts[1]` is `beforeFirst m (afterFirst m s)`,
and `len(parts) > 1` holds exactly when `m in s`. -/

/-- The `.split(m)[1].split("` + `` ``` ``)[0].strip()` computation applied to
marker `m`, i.e. the trimmed text between the first occurrence of `m` and the
following triple-backtick close. -/
def fencedBlock (m s : List Char) : List Char :=
  pyStrip (beforeFirst fenceClose (beforeFirst m (afterFirst m s)))

/-- Lines 163-181: extract `(docker_compose_content, env_content)` from the
final generation response. -/
def extractContents (generation_response : List Char) : List Char × List Char :=
  let docker_compose_content : List Char :=
    if containsSub dcMarker generation_response then
      fencedBlock dcMarker generation_response
    else []
  let env_content : List Char :=
    if containsSub envMarker generation_response then
      fencedBlock envMarker generation_response
    else []
  let docker_compose_content : List Char :=
    if docker_compose_content = [] && containsSub yamlMarker generation_response then
      fencedBlock yamlMarker generation_response
    else docker_compose_content
  (docker_compose_content, env_content)

/-- Lines 183-193: the file writes performed after extraction, in order:
the compose file is always written; the env file only when `env_content`
is nonempty (truthy). -/
def finalizeWrites (generation_response : List Char) :
    List (String × List Char) :=
  let c := extractContents generation_response
  (composePath, c.1) ::
    (if c.2 ≠ [] then [(envPath, c.2)] else [])

example :
    extractContents ("x```docker-compose\nFOO\n```y```env\nBAR\n```z".data)
      = ("FOO".data, "BAR".data) := by decide

example :
    extractContents ("no fences here".data) = ([], []) := by decide

example :
    extractContents ("a```yaml\nservices:\n```b".data)
      = ("services:".data, []) := by decide

example :
    extractContents ("```docker-compose\n```\n```yaml\nservices:\n```".data)
      = ("services:".data, []) := by decide

/-! ## `load_env_vars` (lines 18-31)

The dotenv file is modelled as the list of its lines (the trailing newline of
each physical line is immaterial: the source strips the line before use and
`startswith('#')` is unaffected).  `key, value = line.strip().split('=', 1)`
raises `ValueError` when the stripped line has no `=`; this is the `error`
result. -/

inductive LoadResult where
  | found (value : List Char)
  | notFound
  | error
deriving DecidableEq, Repr

/-- Line 22-31: scan the lines; skip blank lines and lines starting with `#`
(the raw line, not the stripped one); split the stripped line at its first
`=` (no `=` raises); on key `OPENAI_API_KEY` return the value with all
leading and trailing `"` and `'` characters stripped; otherwise continue. -/
def loadEnvVars : List (List Char) → LoadResult
  | [] => .notFound
  | line :: rest =>
    if pyStrip line ≠ [] && line.head? ≠ some '#' then
      match findSub ['='] (pyStrip line) with
      | none => .error
      | some i =>
        if (pyStrip line).take i = "OPENAI_API_KEY".data then
          .found (pyStripBy isQuoteChar ((pyStrip line).drop (i + 1)))
        else loadEnvVars rest
    else loadEnvVars rest

/-- The value of the process environment variable `OPENAI_API_KEY` after a
call to `load_env_vars` (line 29 sets it exactly when the key is found;
`none` in the file argument models an absent `.env` file). -/
def envAfterLoad (dotenvFile : Option (List (List Char)))
    (envVar : Option (List Char)) : Option (List Char) :=
  match dotenvFile with
  | none => envVar
  | some lines =>
    match loadEnvVars lines with
    | .found v => some v
    | _ => envVar

/-! ## `get_openai_key` (lines 33-42) and `main` (lines 215-242) -/

/-- Python truthiness of `os.environ.get(...)` / a returned string:
`None` and the empty string are falsy. -/
def pyTruthy (v : Option (List Char)) : Bool :=
  match v with
  | some x => x ≠ []
  | none => false

/-- The result of the call `load_env_vars()`: `.env` absent returns `None`
(line 31); a line without `=` raises `ValueError` (modelled `.error`). -/
def loadEnvVarsRun (dotenvFile : Option (List (List Char))) :
    Except Unit (Option (List Char)) :=
  match dotenvFile with
  | none => .ok none
  | some lines =>
    match loadEnvVars lines with
    | .found v => .ok (some v)
    | .notFound => .ok none
    | .error => .error ()

/-- Lines 33-42: `api_key = os.environ.get("OPENAI_API_KEY") or
load_env_vars()`; if the result is falsy, prompt the user and strip the
reply.  `promptLine` is the line the user would type at the prompt. -/
def getOpenaiKey (envVar : Option (List Char))
    (dotenvFile : Option (List (List Char))) (promptLine : List Char) :
    Except Unit (List Char) :=
  if pyTruthy envVar then .ok (envVar.getD [])
  else
    match loadEnvVarsRun dotenvFile with
    | .error e => .error e
    | .ok v =>
      if (v.getD []) = [] then .ok (pyStrip promptLine)
      else .ok (v.getD [])

/-! ## `load_documentation` (lines 44-71)

The filesystem is modelled as a partial map from path to file text:
`fs p = none` means the file at `p` does not exist. -/

def staticEnvPath : String := "static-ref/env-variables.md"

def staticComposePath : String := "static-ref/sample-docker-compose.yaml"

def repoEnvPath : String :=
  "repo-docs/open-webui-docs/docs/getting-started/env-configuration.md"

def repoComposePath : String :=
  "repo-docs/open-webui-docs/docs/getting-started/installation/docker-compose.md"

/-- Lines 44-71: read both static-reference files when both exist; otherwise
read each repo-docs file when it exists, an absent file contributing the
empty string. -/
def loadDocumentation (fs : String → Option (List Char)) :
    List Char × List Char :=
  match fs staticEnvPath, fs staticComposePath with
  | some e, some s => (e, s)
  | _, _ =>
    ((fs repoEnvPath).getD [], (fs repoComposePath).getD [])

/-! ## System-prompt assembly (lines 81-99)

The f-string is the concatenation of fixed literal text with
`env_vars_content[:4000]` and `sample_compose_content[:2000]`, each slice
followed by the literal `... [truncated]`. -/

def truncationMarker : List Char := "... [truncated]".data

def promptIntro : List Char :=
  ("You are an expert on OpenWebUI configuration and Docker Compose. \nYour task is to help the user generate a customized Docker Compose file for OpenWebUI.\nYou should ask the user a series of questions about their preferences for:\n1. Database configuration (SQLite or PostgreSQL)\n2. Vector database for RAG (Chroma, Milvus, Qdrant, OpenSearch, PGVector)\n3. Additional services like Redis\n4. Authentication options\n5. API integrations\n6. Other customizations\n\nBased on their answers, you'll generate a complete Docker Compose file with all necessary services and volumes.\nYou'll also generate environment variables, which can be either embedded in the Docker Compose file or in a separate .env.generated file.\n\nHere's reference documentation on OpenWebUI environment variables:\n").data

def promptMid : List Char :=
  ("\n\nHere's a sample Docker Compose file for OpenWebUI:\n").data

def promptTail : List Char := ("\n").data

/-- Line 81-99: the assembled system prompt. -/
def systemPrompt (env_vars_content sample_compose_content : List Char) :
    List Char :=
  promptIntro ++ env_vars_content.take 4000 ++ truncationMarker ++
    promptMid ++ sample_compose_content.take 2000 ++ truncationMarker ++
    promptTail

/-! ## The conversation loop (lines 113-213)

A run is parameterized by the user's input lines and by the oracle of model
responses, consumed one per request; a response either carries reply text or
raises (`err`).  The transcript itself influences no claim and is not
tracked.  The `show_files` prompt after the writes only prints and is
elided. -/

inductive ModelResponse where
  | ok (text : List Char)
  | err (msg : List Char)
deriving DecidableEq, Repr

inductive LoopOutcome where
  | userExit
  | errored (msg : List Char)
  | finalized (generation : List Char)
  | outOfInput
  | outOfResponses
deriving DecidableEq, Repr

structure LoopResult where
  files : List (String × List Char)
  errorsPrinted : List (List Char)
  callsMade : Nat
  outcome : LoopOutcome
deriving DecidableEq, Repr

/-- Line 117: `user_input.lower() in ['exit', 'quit', 'q']`. -/
def isExitWord (l : List Char) : Bool :=
  let w := l.map Char.toLower
  w = "exit".data || w = "quit".data || w = "q".data

/-- Lines 113-213: the `while True` loop of `generate_docker_compose`.
`reference_source` and `env_vars_in_file` are the (never-read) parameters of
the enclosing function.  Each iteration consumes one user line; a non-exit
line costs one model call, and a reply containing the sentinel costs a
second (finalize) call whose reply is fed to extraction and the writes.
An exception from either call is printed once and breaks the loop. -/
def runLoop (reference_source : String) (env_vars_in_file : Bool) :
    List (List Char) → List ModelResponse → LoopResult
  | [], _ => ⟨[], [], 0, .outOfInput⟩
  | user_input :: restInputs, responses =>
    if isExitWord user_input then ⟨[], [], 0, .userExit⟩
    else
      match responses with
      | [] => ⟨[], [], 0, .outOfResponses⟩
      | .err m :: _ => ⟨[], [m], 1, .errored m⟩
      | .ok ai :: rest =>
        if containsSub sentinel ai then
          match rest with
          | [] => ⟨[], [], 1, .outOfResponses⟩
          | .err m :: _ => ⟨[], [m], 2, .errored m⟩
          | .ok gen :: _ => ⟨finalizeWrites gen, [], 2, .finalized gen⟩
        else
          let r := runLoop reference_source env_vars_in_file restInputs rest
          ⟨r.files, r.errorsPrinted, r.callsMade + 1, r.outcome⟩

/-- Lines 215-242: the process exit status.  `interrupted` models a
`KeyboardInterrupt` (caught at top level, `sys.exit(0)`); a `ValueError`
escaping `load_env_vars` is an uncaught exception (`.error`).  The loop's
inputs and responses are parameters of the run but the status never depends
on them: `generate_docker_compose` handles its errors internally and `main`
falls through to a normal return. -/
def scriptExitCode (envVar : Option (List Char))
    (dotenvFile : Option (List (List Char))) (promptLine : List Char)
    (interrupted : Bool) (inputs : List (List Char))
    (responses : List ModelResponse) : Except Unit Nat :=
  if interrupted then .ok 0
  else
    match getOpenaiKey envVar dotenvFile promptLine with
    | .error e => .error e
    | .ok key => if key = [] then .ok 1 else .ok 0

example :
    loadEnvVars ["# c".data, "".data, "OTHER=1".data,
      "OPENAI_API_KEY=\"sk-1\"".data]
      = .found "sk-1".data := by decide

example : loadEnvVars ["  # indented".data] = .error := by decide

example :
    runLoop "static" true ["hi".data] [.err "boom".data]
      = ⟨[], ["boom".data], 1, .errored "boom".data⟩ := by decide

/-! ## Lemmas about the embedded string primitives -/

theorem prefixOf_eq {a b : List Char} : a.isPrefixOf b = true ↔ a <+: b :=
  List.isPrefixOf_iff_prefix

theorem prefTake {x l : List Char} {n : Nat} :
    x <+: l.take n ↔ x <+: l ∧ x.length ≤ n :=
  List.prefix_take_iff

theorem prefOrPref {a b c : List Char} (h1 : a <+: c) (h2 : b <+: c) :
    a <+: b ∨ b <+: a :=
  List.prefix_or_prefix_of_prefix h1 h2

theorem takePref (n : Nat) (l : List Char) : l.take n <+: l :=
  List.take_prefix n l

/-- Soundness of `findSub`: a hit is an occurrence and is the first one. -/
theorem findSub_some {sep s : List Char} {i : Nat}
    (h : findSub sep s = some i) :
    sep <+: s.drop i ∧ ∀ j, j < i → ¬ sep <+: s.drop j := by
  induction s generalizing i with
  | nil =>
    unfold findSub at h
    split at h
    · rename_i hp
      cases h
      exact ⟨prefixOf_eq.mp hp, fun j hj => absurd hj (by omega)⟩
    · cases h
  | cons c rest ih =>
    unfold findSub at h
    split at h
    · rename_i hp
      cases h
      exact ⟨prefixOf_eq.mp hp, fun j hj => absurd hj (by omega)⟩
    · rename_i hp
      cases hfr : findSub sep rest with
      | none => rw [hfr] at h; simp at h
      | some k =>
        rw [hfr] at h
        simp only [Option.map_some'] at h
        cases h
        obtain ⟨h1, h2⟩ := ih hfr
        refine ⟨by simpa using h1, ?_⟩
        intro j hj
        cases j with
        | zero =>
          simpa using fun hc => hp (prefixOf_eq.mpr hc)
        | succ j2 =>
          simpa using h2 j2 (by omega)

/-- Completeness of `findSub`: no hit means no occurrence anywhere. -/
theorem findSub_none {sep s : List Char} (h : findSub sep s = none) :
    ∀ j, ¬ sep <+: s.drop j := by
  induction s with
  | nil =>
    unfold findSub at h
    split at h
    · cases h
    · rename_i hp
      intro j hc
      rw [List.drop_nil] at hc
      rw [List.prefix_nil.mp hc] at hp
      simp [List.isPrefixOf] at hp
  | cons c rest ih =>
    unfold findSub at h
    split at h
    · cases h
    · rename_i hp
      have h2 : findSub sep rest = none := by
        cases hfr : findSub sep rest with
        | none => rfl
        | some k => rw [hfr] at h; simp at h
      intro j
      cases j with
      | zero => simpa using fun hc => hp (prefixOf_eq.mpr hc)
      | succ j2 => simpa using ih h2 j2

/-- `findSub` finds any position that is an occurrence with none before it. -/
theorem findSub_eq_some {sep s : List Char} {i : Nat}
    (h1 : sep <+: s.drop i) (h2 : ∀ j, j < i → ¬ sep <+: s.drop j) :
    findSub sep s = some i := by
  induction s generalizing i with
  | nil =>
    cases i with
    | zero =>
      rw [List.drop_nil] at h1
      unfold findSub
      rw [if_pos (prefixOf_eq.mpr h1)]
    | succ n =>
      rw [List.drop_nil] at h1
      exact absurd (by simpa using h1 : sep <+: ([] : List Char).drop 0)
        (h2 0 (by omega))
  | cons c rest ih =>
    cases i with
    | zero =>
      unfold findSub
      rw [if_pos (prefixOf_eq.mpr (by simpa using h1))]
    | succ k =>
      unfold findSub
      rw [if_neg (fun hp => h2 0 (by omega) (by simpa using prefixOf_eq.mp hp))]
      rw [ih (by simpa using h1) (fun j hj => by simpa using h2 (j + 1) (by omega))]
      rfl

theorem singlePrefix_head {c : Char} {l : List Char} :
    [c] <+: l ↔ l.head? = some c := by
  constructor
  · rintro ⟨t, rfl⟩; rfl
  · intro h
    cases l with
    | nil => cases h
    | cons x rest =>
      cases h
      exact ⟨rest, rfl⟩

/-- An element not satisfying `p` survives `dropWhile p`. -/
theorem mem_dropWhile_of_mem {p : Char → Bool} {c : Char} {l : List Char}
    (hm : c ∈ l) (hc : p c = false) : c ∈ l.dropWhile p := by
  induction l with
  | nil => cases hm
  | cons x rest ih =>
    rw [List.dropWhile_cons]
    split
    · rename_i hx
      rcases List.mem_cons.mp hm with rfl | hm2
      · rw [hx] at hc; cases hc
      · exact ih hm2
    · exact hm

theorem mem_stripLeft_of_mem {p : Char → Bool} {c : Char} {l : List Char}
    (hm : c ∈ l) (hc : p c = false) : c ∈ stripLeft p l :=
  mem_dropWhile_of_mem hm hc

theorem mem_stripRight_of_mem {p : Char → Bool} {c : Char} {l : List Char}
    (hm : c ∈ l) (hc : p c = false) : c ∈ stripRight p l := by
  unfold stripRight
  rw [List.mem_reverse]
  exact mem_dropWhile_of_mem (List.mem_reverse.mpr hm) hc

theorem mem_pyStrip_of_mem {c : Char} {l : List Char}
    (hm : c ∈ l) (hc : isPySpace c = false) : c ∈ pyStrip l :=
  mem_stripRight_of_mem (mem_stripLeft_of_mem hm hc) hc

/-- A single-character pattern is found whenever the character occurs. -/
theorem findSub_single_ne_none {c : Char} {s : List Char} (hm : c ∈ s) :
    findSub [c] s ≠ none := by
  intro h
  rcases List.mem_iff_append.mp hm with ⟨pre, post, rfl⟩
  exact findSub_none h pre.length
    (by rw [List.drop_left]; exact ⟨post, rfl⟩)

/-- First occurrence of a single character standing right after a clean
run of other characters. -/
theorem findSub_single_boundary {a : Char} {xs ys : List Char}
    (ha : a ∉ xs) : findSub [a] (xs ++ a :: ys) = some xs.length := by
  apply findSub_eq_some
  · rw [List.drop_left]
    exact ⟨ys, rfl⟩
  · intro j hj hc
    rw [singlePrefix_head] at hc
    rw [List.drop_append_of_le_length (by omega), List.head?_append,
      List.head?_drop] at hc
    cases hg : xs[j]? with
    | none =>
      rw [List.getElem?_eq_none_iff] at hg
      omega
    | some x =>
      rw [hg] at hc
      simp only [Option.or_some] at hc
      cases hc
      exact ha (List.getElem?_mem hg)

theorem stripLeft_of_head {p : Char → Bool} {l : List Char} {c : Char}
    (hh : l.head? = some c) (hc : p c = false) : stripLeft p l = l := by
  cases l with
  | nil => cases hh
  | cons x rest =>
    cases hh
    simp [stripLeft, List.dropWhile_cons, hc]

theorem stripRight_append (p : Char → Bool) (xs ys : List Char) :
    stripRight p (xs ++ ys) =
      if stripRight p ys = [] then stripRight p xs
      else xs ++ stripRight p ys := by
  unfold stripRight
  rw [List.reverse_append, List.dropWhile_append]
  cases hy : (List.dropWhile p ys.reverse).isEmpty with
  | true =>
    have h2 : (List.dropWhile p ys.reverse).reverse = [] := by
      rw [List.isEmpty_iff] at hy
      simp [hy]
    simp [h2]
  | false =>
    have h2 : ¬ (List.dropWhile p ys.reverse).reverse = [] := by
      rw [List.isEmpty_eq_false_iff_exists_mem] at hy
      simp only [List.reverse_eq_nil_iff]
      intro hnil
      rcases hy with ⟨x, hx⟩
      rw [hnil] at hx
      cases hx
    simp [h2, List.reverse_append]

/-- Stripping a line of the shape `OPENAI_API_KEY=<v>` only strips trailing
whitespace of `v`. -/
theorem pyStrip_keyline (v : List Char) :
    pyStrip ("OPENAI_API_KEY=".data ++ v) =
      "OPENAI_API_KEY=".data ++ stripRight isPySpace v := by
  unfold pyStrip pyStripBy
  rw [stripLeft_of_head (c := 'O') (by rw [List.head?_append]; rfl) (by decide),
    stripRight_append]
  split
  · rename_i h
    rw [h, List.append_nil]
    decide
  · rfl

/-- The conversation loop never reads its `env_vars_in_file` parameter. -/
theorem runLoop_flag (ref : String) (b b2 : Bool) :
    ∀ (inputs : List (List Char)) (rs : List ModelResponse),
      runLoop ref b inputs rs = runLoop ref b2 inputs rs := by
  intro inputs
  induction inputs with
  | nil => intro rs; rfl
  | cons u rest ih =>
    intro rs
    simp only [runLoop, ih]

/-- On a finalized run the files written are exactly the finalize writes of
the generation reply, and no error was printed. -/
theorem runLoop_finalized_files (ref : String) (b : Bool) :
    ∀ (inputs : List (List Char)) (rs : List ModelResponse) (gen : List Char),
      (runLoop ref b inputs rs).outcome = .finalized gen →
      (runLoop ref b inputs rs).files = finalizeWrites gen ∧
      (runLoop ref b inputs rs).errorsPrinted = [] := by
  intro inputs
  induction inputs with
  | nil => intro rs gen h; exact absurd h (by simp [runLoop])
  | cons u rest ih =>
    intro rs gen h
    by_cases hexit : isExitWord u = true
    · simp [runLoop, hexit] at h
    · cases rs with
      | nil => simp [runLoop, hexit] at h
      | cons r rs2 =>
        cases r with
        | err m => simp [runLoop, hexit] at h
        | ok ai =>
          by_cases hsent : containsSub sentinel ai = true
          · cases rs2 with
            | nil => simp [runLoop, hexit, hsent] at h
            | cons r2 rs3 =>
              cases r2 with
              | err m => simp [runLoop, hexit, hsent] at h
              | ok gen2 =>
                simp only [runLoop, hexit, hsent, if_true, if_neg] at h ⊢
                simp at h
                subst h
                exact ⟨rfl, rfl⟩
          · simp only [runLoop, hexit, hsent, if_neg, if_false] at h ⊢
            simp only [Bool.false_eq_true, if_false] at h ⊢
            exact ih rs2 gen h

/-! ## Claim theorems -/

/-- C10: the dotenv loader is not total: a file whose first non-blank,
non-comment line has no `=` character (for example an indented comment)
raises; under the precondition that every non-blank line not starting with
`#` contains an `=`, no line raises. -/
theorem load_env_vars_partial :
    loadEnvVars ["  # indented comment".data] = .error ∧
    ∀ lines : List (List Char),
      (∀ l ∈ lines, pyStrip l ≠ [] → l.head? ≠ some '#' → '=' ∈ l) →
      loadEnvVars lines ≠ .error := by
  refine ⟨by decide, ?_⟩
  intro lines h
  induction lines with
  | nil => simp [loadEnvVars]
  | cons l rest ih =>
    by_cases hcond : (pyStrip l ≠ [] && l.head? ≠ some '#') = true
    · have hcond2 : pyStrip l ≠ [] ∧ l.head? ≠ some '#' := by simpa using hcond
      have hm : '=' ∈ l := h l (by simp) hcond2.1 hcond2.2
      have hne : findSub ['='] (pyStrip l) ≠ none :=
        findSub_single_ne_none (mem_pyStrip_of_mem hm (by decide))
      cases hf : findSub ['='] (pyStrip l) with
      | none => exact absurd hf hne
      | some i =>
        have heq : loadEnvVars (l :: rest) =
            if (pyStrip l).take i = "OPENAI_API_KEY".data then
              LoadResult.found (pyStripBy isQuoteChar ((pyStrip l).drop (i + 1)))
            else loadEnvVars rest := by
          conv_lhs => unfold loadEnvVars
          rw [if_pos hcond, hf]
        rw [heq]
        by_cases hk : (pyStrip l).take i = "OPENAI_API_KEY".data
        · simp [hk]
        · rw [if_neg hk]
          exact ih fun l2 hl2 => h l2 (List.mem_cons_of_mem l hl2)
    · have heq : loadEnvVars (l :: rest) = loadEnvVars rest := by
        conv_lhs => unfold loadEnvVars
        rw [if_neg hcond]
      rw [heq]
      exact ih fun l2 hl2 => h l2 (List.mem_cons_of_mem l hl2)

theorem load_env_vars_partial_witness :
    loadEnvVars ["A=B".data] ≠ .error :=
  load_env_vars_partial.2 ["A=B".data] (by decide)

/-- C2: when none of the three fence markers occurs in the reply, the
compose file is still written with empty content and no env file is
written. -/
theorem no_marker_empty_write (s : List Char)
    (h1 : findSub dcMarker s = none)
    (h2 : findSub yamlMarker s = none)
    (h3 : findSub envMarker s = none) :
    finalizeWrites s = [(composePath, [])] := by
  simp [finalizeWrites, extractContents, containsSub, h1, h2, h3]

theorem no_marker_empty_write_witness :
    finalizeWrites "here is your file".data = [(composePath, [])] :=
  no_marker_empty_write "here is your file".data
    (by decide) (by decide) (by decide)

/-- C4: for reference text longer than its budget (4000 for the variable
documentation, 2000 for the sample configuration), the assembled system
prompt contains exactly the first 4000 (resp. 2000) characters immediately
followed by the truncation marker, and depends on no character of the text
beyond the budget. -/
theorem prompt_truncation (docs sample : List Char)
    (hd : 4000 < docs.length) (hs : 2000 < sample.length) :
    (∃ p q, systemPrompt docs sample
        = p ++ (docs.take 4000 ++ truncationMarker) ++ q) ∧
    (docs.take 4000).length = 4000 ∧
    (∃ p q, systemPrompt docs sample
        = p ++ (sample.take 2000 ++ truncationMarker) ++ q) ∧
    (sample.take 2000).length = 2000 ∧
    (∀ docs2 sample2, docs2.take 4000 = docs.take 4000 →
        sample2.take 2000 = sample.take 2000 →
        systemPrompt docs2 sample2 = systemPrompt docs sample) := by
  refine ⟨⟨promptIntro,
      promptMid ++ sample.take 2000 ++ truncationMarker ++ promptTail,
      by simp [systemPrompt, List.append_assoc]⟩, ?_,
    ⟨promptIntro ++ docs.take 4000 ++ truncationMarker ++ promptMid,
      promptTail, by simp [systemPrompt, List.append_assoc]⟩, ?_, ?_⟩
  · rw [List.length_take]
    omega
  · rw [List.length_take]
    omega
  · intro docs2 sample2 e1 e2
    simp [systemPrompt, e1, e2]

theorem prompt_truncation_witness :
    4000 < (List.replicate 4001 'a').length ∧
    ((∃ p q, systemPrompt (List.replicate 4001 'a') (List.replicate 2001 'b')
        = p ++ ((List.replicate 4001 'a').take 4000 ++ truncationMarker) ++ q) ∧
      ((List.replicate 4001 'a').take 4000).length = 4000 ∧
      (∃ p q, systemPrompt (List.replicate 4001 'a') (List.replicate 2001 'b')
        = p ++ ((List.replicate 2001 'b').take 2000 ++ truncationMarker) ++ q) ∧
      ((List.replicate 2001 'b').take 2000).length = 2000 ∧
      (∀ docs2 sample2, docs2.take 4000 = (List.replicate 4001 'a').take 4000 →
        sample2.take 2000 = (List.replicate 2001 'b').take 2000 →
        systemPrompt docs2 sample2
          = systemPrompt (List.replicate 4001 'a') (List.replicate 2001 'b'))) :=
  ⟨by rw [List.length_replicate]; omega,
    prompt_truncation (List.replicate 4001 'a') (List.replicate 2001 'b')
      (by rw [List.length_replicate]; omega)
      (by rw [List.length_replicate]; omega)⟩

/-- C6: when at least one of the two static-reference files is missing, the
loader returns the repo-docs fallback contents (empty string for a missing
fallback file); when both static files exist it returns them and its result
does not depend on the fallback location at all (`fs2` may differ from `fs`
anywhere outside the two static paths). -/
theorem load_documentation_fallback (fs fs2 : String → Option (List Char))
    (e1 : fs2 staticEnvPath = fs staticEnvPath)
    (e2 : fs2 staticComposePath = fs staticComposePath) :
    ((fs staticEnvPath = none ∨ fs staticComposePath = none) →
      loadDocumentation fs
        = ((fs repoEnvPath).getD [], (fs repoComposePath).getD [])) ∧
    (∀ ev sc, fs staticEnvPath = some ev → fs staticComposePath = some sc →
      loadDocumentation fs = (ev, sc) ∧
      loadDocumentation fs = loadDocumentation fs2) := by
  constructor
  · intro h
    rcases hA : fs staticEnvPath with _ | ev <;>
      rcases hB : fs staticComposePath with _ | sc <;>
      simp [loadDocumentation, hA, hB] <;>
      rw [hA] at h <;> rw [hB] at h <;> simpa using h
  · intro ev sc hA hB
    constructor
    · simp [loadDocumentation, hA, hB]
    · simp [loadDocumentation, hA, hB, e1, e2]

theorem load_documentation_fallback_witness :
    loadDocumentation
        (fun p => if p = repoEnvPath then some "E".data
          else if p = repoComposePath then some "S".data else none)
      = ("E".data, "S".data) := by
  have h := (load_documentation_fallback
      (fun p => if p = repoEnvPath then some "E".data
        else if p = repoComposePath then some "S".data else none)
      (fun p => if p = repoEnvPath then some "E".data
        else if p = repoComposePath then some "S".data else none)
      rfl rfl).1 (Or.inl (by decide))
  rw [h]
  decide

/-- C8: the process exit status is `1` exactly when (not interrupted and)
the resolved credential is empty; a keyboard interrupt exits `0`; a
non-empty credential exits `0`; and the status never depends on the
conversation loop's inputs or on its model responses (so an in-loop handled
error still exits `0`). -/
theorem exit_code_spec (envVar : Option (List Char))
    (dotenvFile : Option (List (List Char))) (promptLine : List Char)
    (interrupted : Bool) (inputs : List (List Char))
    (responses : List ModelResponse) :
    (scriptExitCode envVar dotenvFile promptLine interrupted inputs responses
        = .ok 1 ↔
      (interrupted = false ∧
        getOpenaiKey envVar dotenvFile promptLine = .ok [])) ∧
    (interrupted = true →
      scriptExitCode envVar dotenvFile promptLine interrupted inputs responses
        = .ok 0) ∧
    (∀ key, getOpenaiKey envVar dotenvFile promptLine = .ok key → key ≠ [] →
      scriptExitCode envVar dotenvFile promptLine interrupted inputs responses
        = .ok 0) ∧
    (∀ inputs2 responses2,
      scriptExitCode envVar dotenvFile promptLine interrupted inputs2 responses2
        = scriptExitCode envVar dotenvFile promptLine interrupted inputs
            responses) := by
  cases interrupted with
  | true => simp [scriptExitCode]
  | false =>
    cases hk : getOpenaiKey envVar dotenvFile promptLine with
    | error e => cases e; simp [scriptExitCode, hk]
    | ok key =>
      by_cases hkey : key = []
      · subst hkey
        simp [scriptExitCode, hk]
      · simp [scriptExitCode, hk, hkey]

theorem exit_code_spec_witness :
    scriptExitCode none none [] false [] [] = .ok 1 :=
  (exit_code_spec none none [] false [] []).1.mpr ⟨rfl, rfl⟩

/-- C9: two runs differing only in the `env_vars_in_file` flag behave
identically, and on a finalized run the separate environment file is among
the written files exactly when the extracted env block of the final reply is
nonempty — regardless of the flag. -/
theorem env_flag_unused (ref : String) (b b2 : Bool)
    (inputs : List (List Char)) (rs : List ModelResponse) :
    runLoop ref b inputs rs = runLoop ref b2 inputs rs ∧
    ∀ gen, (runLoop ref b inputs rs).outcome = .finalized gen →
      ((∃ c, (envPath, c) ∈ (runLoop ref b inputs rs).files) ↔
        (extractContents gen).2 ≠ []) := by
  refine ⟨runLoop_flag ref b b2 inputs rs, ?_⟩
  intro gen h
  rw [(runLoop_finalized_files ref b inputs rs gen h).1]
  unfold finalizeWrites
  constructor
  · rintro ⟨c, hc⟩
    by_cases hnil : (extractContents gen).2 = []
    · simp only [hnil, ne_eq, not_true_eq_false, if_neg, if_false] at hc
      simp only [List.mem_singleton, Prod.mk.injEq] at hc
      exact absurd hc.1 (by decide)
    · exact hnil
  · intro hne
    exact ⟨(extractContents gen).2, by simp [hne]⟩

theorem env_flag_unused_witness :
    ∃ c, (envPath, c) ∈ (runLoop "static" true ["go".data]
        [.ok sentinel, .ok "x```env\nA=1\n```y".data]).files :=
  ((env_flag_unused "static" true false ["go".data]
      [.ok sentinel, .ok "x```env\nA=1\n```y".data]).2
    "x```env\nA=1\n```y".data (by decide)).mpr (by decide)

/-- C7: whenever a run of the conversation loop ends in an error raised by
a model call, no file was written, the error message was printed exactly
once, and the calls made are exactly the successful ones followed by the
single failing call — no retry happens after it. -/
theorem loop_error_abandons_run (ref : String) (b : Bool)
    (inputs : List (List Char)) (rs : List ModelResponse) (m : List Char)
    (h : (runLoop ref b inputs rs).outcome = .errored m) :
    (runLoop ref b inputs rs).files = [] ∧
    (runLoop ref b inputs rs).errorsPrinted = [m] ∧
    ∃ k, (runLoop ref b inputs rs).callsMade = k + 1 ∧
      rs[k]? = some (.err m) ∧
      ∀ j, j < k → ∃ t, rs[j]? = some (.ok t) := by
  induction inputs generalizing rs with
  | nil => exact absurd h (by simp [runLoop])
  | cons u rest ih =>
    by_cases hexit : isExitWord u = true
    · rw [show runLoop ref b (u :: rest) rs = ⟨[], [], 0, .userExit⟩ by
        simp [runLoop, hexit]] at h
      cases h
    · cases rs with
      | nil => simp [runLoop, hexit] at h
      | cons r rs2 =>
        cases r with
        | err m2 =>
          have hr : runLoop ref b (u :: rest) (.err m2 :: rs2)
              = ⟨[], [m2], 1, .errored m2⟩ := by
            simp [runLoop, hexit]
          rw [hr] at h ⊢
          cases h
          exact ⟨rfl, rfl, 0, rfl, by simp, fun j hj => absurd hj (by omega)⟩
        | ok ai =>
          by_cases hsent : containsSub sentinel ai = true
          · cases rs2 with
            | nil => simp [runLoop, hexit, hsent] at h
            | cons r2 rs3 =>
              cases r2 with
              | err m2 =>
                have hr : runLoop ref b (u :: rest)
                    (.ok ai :: .err m2 :: rs3)
                    = ⟨[], [m2], 2, .errored m2⟩ := by
                  simp [runLoop, hexit, hsent]
                rw [hr] at h ⊢
                cases h
                refine ⟨rfl, rfl, 1, rfl, by simp, ?_⟩
                intro j hj
                interval_cases j
                exact ⟨ai, by simp⟩
              | ok gen => simp [runLoop, hexit, hsent] at h
          · have hr : runLoop ref b (u :: rest) (.ok ai :: rs2)
                = ⟨(runLoop ref b rest rs2).files,
                    (runLoop ref b rest rs2).errorsPrinted,
                    (runLoop ref b rest rs2).callsMade + 1,
                    (runLoop ref b rest rs2).outcome⟩ := by
              simp [runLoop, hexit, hsent]
            rw [hr] at h ⊢
            obtain ⟨hf, he, k, hc, hk, hj⟩ := ih rs2 h
            refine ⟨hf, he, k + 1, by rw [hc], by simpa using hk, ?_⟩
            intro j hj2
            cases j with
            | zero => exact ⟨ai, by simp⟩
            | succ j2 =>
              simpa using hj j2 (by omega)

theorem loop_error_abandons_run_witness :
    (runLoop "static" true ["hi".data] [.err "boom".data]).files = [] ∧
    (runLoop "static" true ["hi".data] [.err "boom".data]).errorsPrinted
      = ["boom".data] :=
  ⟨(loop_error_abandons_run "static" true ["hi".data] [.err "boom".data]
      "boom".data (by decide)).1,
    (loop_error_abandons_run "static" true ["hi".data] [.err "boom".data]
      "boom".data (by decide)).2.1⟩

/-- Stated from the claim's words, for comparison with the code: remove one
single layer of matching quote characters (same quote character at both
ends), and nothing else. -/
def specStripSingleMatchingLayer : List Char → List Char
  | [] => []
  | [c] => [c]
  | c :: rest =>
    if isQuoteChar c && rest.getLast? == some c then rest.dropLast
    else c :: rest

/-- C5 (counterexample): on the line `OPENAI_API_KEY=""k""` the code strips
all leading and trailing quote characters and returns `k`, while stripping a
single layer of matching quotes would return `"k"`. -/
theorem quote_strip_counterexample :
    loadEnvVars ["OPENAI_API_KEY=\"\"k\"\"".data] = .found "k".data ∧
    specStripSingleMatchingLayer "\"\"k\"\"".data = "\"k\"".data ∧
    ("k".data : List Char) ≠ "\"k\"".data := by decide

/-- C5 (amended): for a dotenv file whose earlier lines are blank, comments,
or `KEY=...` lines with a different key, the resolver returns the value with
its trailing whitespace removed and then all leading and trailing quote
characters (single or double, matching or not) stripped — not just one
matching layer — and sets the `OPENAI_API_KEY` environment variable to that
value. -/
theorem quote_strip_amended (pre : List (List Char)) (v : List Char)
    (rest : List (List Char))
    (hpre : ∀ l ∈ pre, pyStrip l = [] ∨ l.head? = some '#' ∨
      (∃ i, findSub ['='] (pyStrip l) = some i ∧
        (pyStrip l).take i ≠ "OPENAI_API_KEY".data)) :
    loadEnvVars (pre ++ ("OPENAI_API_KEY=".data ++ v) :: rest)
      = .found (pyStripBy isQuoteChar (stripRight isPySpace v)) ∧
    ∀ envVar,
      envAfterLoad (some (pre ++ ("OPENAI_API_KEY=".data ++ v) :: rest)) envVar
        = some (pyStripBy isQuoteChar (stripRight isPySpace v)) := by
  have hmain : loadEnvVars (pre ++ ("OPENAI_API_KEY=".data ++ v) :: rest)
      = .found (pyStripBy isQuoteChar (stripRight isPySpace v)) := by
    induction pre with
    | nil =>
      rw [List.nil_append]
      have hline : pyStrip ("OPENAI_API_KEY=".data ++ v)
          = "OPENAI_API_KEY".data ++ '=' :: stripRight isPySpace v := by
        rw [pyStrip_keyline]
        rfl
      have hfind : findSub ['=']
          ("OPENAI_API_KEY".data ++ '=' :: stripRight isPySpace v)
          = some ("OPENAI_API_KEY".data).length :=
        findSub_single_boundary (by decide)
      have hcond : (pyStrip ("OPENAI_API_KEY=".data ++ v) ≠ [] &&
          ("OPENAI_API_KEY=".data ++ v).head? ≠ some '#') = true := by
        rw [hline]
        simp
      conv_lhs => unfold loadEnvVars
      rw [if_pos hcond, hline, hfind]
      simp only [List.take_left, eq_self_iff_true, if_true, List.drop_append,
        List.drop_succ_cons, List.drop_zero]
    | cons l pre2 ih =>
      have ih2 := ih fun l2 hl2 => hpre l2 (List.mem_cons_of_mem l hl2)
      rw [List.cons_append]
      rcases hpre l (List.mem_cons_self l pre2) with hl | hl | ⟨i, hf, hk⟩
      · have : loadEnvVars (l :: (pre2 ++ ("OPENAI_API_KEY=".data ++ v) :: rest))
            = loadEnvVars (pre2 ++ ("OPENAI_API_KEY=".data ++ v) :: rest) := by
          conv_lhs => unfold loadEnvVars
          rw [if_neg (by simp [hl])]
        rw [this, ih2]
      · have : loadEnvVars (l :: (pre2 ++ ("OPENAI_API_KEY=".data ++ v) :: rest))
            = loadEnvVars (pre2 ++ ("OPENAI_API_KEY=".data ++ v) :: rest) := by
          conv_lhs => unfold loadEnvVars
          rw [if_neg (by simp [hl])]
        rw [this, ih2]
      · by_cases hcond : (pyStrip l ≠ [] && l.head? ≠ some '#') = true
        · have : loadEnvVars (l :: (pre2 ++ ("OPENAI_API_KEY=".data ++ v) :: rest))
              = loadEnvVars (pre2 ++ ("OPENAI_API_KEY=".data ++ v) :: rest) := by
            conv_lhs => unfold loadEnvVars
            rw [if_pos hcond, hf]
            simp only [if_neg hk]
          rw [this, ih2]
        · have : loadEnvVars (l :: (pre2 ++ ("OPENAI_API_KEY=".data ++ v) :: rest))
              = loadEnvVars (pre2 ++ ("OPENAI_API_KEY=".data ++ v) :: rest) := by
            conv_lhs => unfold loadEnvVars
            rw [if_neg hcond]
          rw [this, ih2]
  refine ⟨hmain, fun envVar => ?_⟩
  have hred : envAfterLoad
      (some (pre ++ ("OPENAI_API_KEY=".data ++ v) :: rest)) envVar
      = match loadEnvVars (pre ++ ("OPENAI_API_KEY=".data ++ v) :: rest) with
        | .found w => some w
        | _ => envVar := rfl
  rw [hred, hmain]

theorem quote_strip_amended_witness :
    loadEnvVars ["# comment".data, "OPENAI_API_KEY=".data ++ "'sk'  ".data]
      = .found (pyStripBy isQuoteChar (stripRight isPySpace "'sk'  ".data)) :=
  (quote_strip_amended ["# comment".data] "'sk'  ".data []
    (by
      intro l hl
      rcases List.mem_singleton.mp hl with rfl
      exact Or.inr (Or.inl rfl))).1

/-- C3 (counterexample): in the reply
`` ```docker-compose ``, newline, `` ``` ``, newline, `` ```yaml ``,
`services:`, `` ``` ``, the docker-compose marker is present, yet the
configuration text is taken from the yaml fence (the docker-compose block
trims to empty and the fallback fires anyway). -/
theorem yaml_fallback_counterexample :
    containsSub dcMarker
        ("```docker-compose\n```\n```yaml\nservices:\n```".data) = true ∧
    (extractContents
        ("```docker-compose\n```\n```yaml\nservices:\n```".data)).1
      = "services:".data ∧
    fencedBlock dcMarker
        ("```docker-compose\n```\n```yaml\nservices:\n```".data) = [] ∧
    ("services:".data : List Char) ≠ [] := by decide

/-- C3 (amended): the configuration text is taken from the first
docker-compose fence whenever that marker occurs and its trimmed block is
nonempty; the yaml fence is used as the source exactly when the
docker-compose marker is absent or its trimmed block is empty. -/
theorem yaml_fallback_amended (s : List Char) :
    (containsSub dcMarker s = true → fencedBlock dcMarker s ≠ [] →
      (extractContents s).1 = fencedBlock dcMarker s) ∧
    (containsSub dcMarker s = false ∨ fencedBlock dcMarker s = [] →
      (containsSub yamlMarker s = true →
        (extractContents s).1 = fencedBlock yamlMarker s) ∧
      (containsSub yamlMarker s = false → (extractContents s).1 = [])) := by
  cases hdc : containsSub dcMarker s <;>
    cases hyl : containsSub yamlMarker s <;>
    by_cases hfb : fencedBlock dcMarker s = [] <;>
    simp [extractContents, hdc, hyl, hfb]

theorem yaml_fallback_amended_witness :
    (extractContents "a```yaml\nX\n```b".data).1
      = fencedBlock yamlMarker "a```yaml\nX\n```b".data :=
  ((yaml_fallback_amended "a```yaml\nX\n```b".data).2
    (Or.inl (by decide))).1 (by decide)

/-! ## Positioning lemmas for the fence markers

These locate the first occurrence of each marker in a reply of the
canonical shape the finalize prompt requests, which is what the claim about
extraction needs. -/

/-- A prefix of an append is a prefix of the left part or extends past it. -/
theorem prefix_append_cases {p A B : List Char} (h : p <+: A ++ B) :
    p <+: A ∨ (A <+: p ∧ p.drop A.length <+: B) := by
  by_cases hl : p.length ≤ A.length
  · rcases prefOrPref h (List.prefix_append A B) with h2 | h2
    · exact Or.inl h2
    · exact Or.inl (by rw [h2.eq_of_length (le_antisymm h2.length_le hl)])
  · right
    rcases prefOrPref h (List.prefix_append A B) with h2 | h2
    · exact absurd h2.length_le hl
    · refine ⟨h2, ?_⟩
      rcases h2 with ⟨u, rfl⟩
      rcases h with ⟨t, ht⟩
      rw [List.append_assoc] at ht
      have := List.append_cancel_left ht
      rw [List.drop_left]
      exact ⟨t, this⟩

/-- Two lists with a common prefix of length `n` agree on their first `n`
elements. -/
theorem prefix_take_eq {p l : List Char} {n : Nat} (h : p <+: l)
    (hn : n ≤ p.length) : l.take n = p.take n := by
  rcases h with ⟨t, rfl⟩
  rw [List.take_append_of_le_length hn]

theorem consPrefix_head {c : Char} {r l : List Char} (h : (c :: r) <+: l) :
    l.head? = some c := by
  rcases h with ⟨t, rfl⟩
  rfl

theorem prefix_of_take {x l : List Char} {n : Nat} (h : x <+: l.take n) :
    x <+: l :=
  h.trans (takePref n l)

/-- Inside `Y ++ c :: R` with `Y` free of `sep` occurrences and `c ∉ sep`,
no `sep` occurrence starts at a position up to the end of `Y`. -/
theorem no_occ_in_block {sep Y : List Char} {c : Char} {R : List Char}
    (hY : ∀ j, ¬ sep <+: Y.drop j) (hc : c ∉ sep) :
    ∀ j, j ≤ Y.length → ¬ sep <+: (Y ++ c :: R).drop j := by
  intro j hj hp
  rw [List.drop_append_of_le_length hj] at hp
  rcases prefix_append_cases hp with h | ⟨hA, hrest⟩
  · exact hY j h
  · by_cases hk : (Y.drop j).length = sep.length
    · exact hY j (by rw [hA.eq_of_length hk])
    · have hklt : (Y.drop j).length < sep.length :=
        lt_of_le_of_ne hA.length_le hk
      have hne : sep.drop (Y.drop j).length ≠ [] := by
        intro h0
        have h1 := congrArg List.length h0
        simp only [List.length_drop, List.length_nil] at h1 hklt
        omega
      cases hd : sep.drop (Y.drop j).length with
      | nil => exact hne hd
      | cons x xs =>
        rw [hd] at hrest
        have hx : c = x := by simpa using consPrefix_head hrest
        apply hc
        rw [hx]
        exact List.mem_of_mem_drop (show x ∈ sep.drop (Y.drop j).length by
          rw [hd]; simp)

/-- First triple-backtick inside the inner block text
`'\n' :: Y ++ '\n' :: fenceClose ++ R` — the explicit closing fence. -/
theorem findSub_close (Y R : List Char)
    (hY : ∀ j, ¬ fenceClose <+: Y.drop j) :
    findSub fenceClose ('\n' :: (Y ++ '\n' :: (fenceClose ++ R)))
      = some (Y.length + 2) := by
  apply findSub_eq_some
  · have heq : '\n' :: (Y ++ '\n' :: (fenceClose ++ R))
        = ('\n' :: Y ++ ['\n']) ++ (fenceClose ++ R) := by simp
    rw [heq, List.drop_left' (by simp)]
    exact List.prefix_append _ _
  · intro j hj hp
    cases j with
    | zero =>
      have := consPrefix_head (show ('`' :: "``".data) <+: _ from hp)
      simpa using this
    | succ j2 =>
      rw [List.drop_succ_cons] at hp
      exact no_occ_in_block hY (by decide) j2 (by omega) hp

/-- No occurrence of the marker `m` strictly before a clean prefix `X`
followed by a fence: `X` has no triple backtick, the tail starts with one,
and `m` is a fenced marker whose shifts by one or two do not look like a
fence. -/
theorem no_occ_before_in_clean {m X T : List Char}
    (hm : fenceClose <+: m) (hlen : 5 ≤ m.length)
    (hX : ∀ j, ¬ fenceClose <+: X.drop j)
    (hd1 : (m.drop 1).take 3 ≠ fenceClose)
    (hd2 : (m.drop 2).take 3 ≠ fenceClose)
    (hT : T.take 3 = fenceClose) :
    ∀ j, j < X.length → ¬ m <+: (X ++ T).drop j := by
  intro j hj hp
  rw [List.drop_append_of_le_length (by omega)] at hp
  rcases prefix_append_cases hp with h | ⟨hA, hrest⟩
  · exact hX j (hm.trans h)
  · by_cases hk3 : 3 ≤ (X.drop j).length
    · rcases prefOrPref hm hA with hb | hb
      · exact hX j hb
      · have hble := hb.length_le
        have hfc : fenceClose.length = 3 := by decide
        have heq3 : (X.drop j).length = fenceClose.length := by omega
        exact hX j (by rw [hb.eq_of_length heq3])
    · have hk : (X.drop j).length = 1 ∨ (X.drop j).length = 2 := by
        rw [List.length_drop] at hk3 ⊢
        omega
      have h3 : 3 ≤ (m.drop (X.drop j).length).length := by
        rcases hk with hk | hk <;> rw [hk, List.length_drop] <;> omega
      have hcmp := prefix_take_eq hrest h3
      rw [hT] at hcmp
      rcases hk with hk | hk <;> rw [hk] at hcmp
      · exact hd1 hcmp.symm
      · exact hd2 hcmp.symm

/-- A fenced marker standing right after a clean prefix is the first
occurrence of itself. -/
theorem findSub_marker_at {m X body : List Char}
    (hm : fenceClose <+: m) (hlen : 5 ≤ m.length)
    (hX : ∀ j, ¬ fenceClose <+: X.drop j)
    (hd1 : (m.drop 1).take 3 ≠ fenceClose)
    (hd2 : (m.drop 2).take 3 ≠ fenceClose) :
    findSub m (X ++ (m ++ body)) = some X.length := by
  apply findSub_eq_some
  · rw [List.drop_left]
    exact List.prefix_append _ _
  · intro j hj
    apply no_occ_before_in_clean hm hlen hX hd1 hd2 ?_ j hj
    rw [List.take_append_of_le_length (by omega)]
    exact (prefix_take_eq hm (by decide)).trans (by decide)

/-- Stripping whitespace from a block sandwiched between the newlines the
requested format puts around it strips the block itself. -/
theorem pyStrip_sandwich (l : List Char) :
    pyStrip ('\n' :: l ++ ['\n']) = pyStrip l := by
  unfold pyStrip pyStripBy
  have hcons : stripLeft isPySpace ('\n' :: l ++ ['\n'])
      = stripLeft isPySpace (l ++ ['\n']) := by
    unfold stripLeft
    rw [List.cons_append, List.dropWhile_cons, if_pos (by decide)]
  rw [hcons]
  unfold stripLeft
  rw [List.dropWhile_append]
  cases he : (List.dropWhile isPySpace l).isEmpty with
  | true =>
    have h0 : List.dropWhile isPySpace l = [] := by rwa [List.isEmpty_iff] at he
    rw [if_pos rfl, h0]
    rw [show List.dropWhile isPySpace ['\n'] = [] from by decide]
  | false =>
    rw [if_neg (by simp), stripRight_append,
      if_pos (show stripRight isPySpace ['\n'] = [] from by decide)]

/-- Evaluation of the two nested `beforeFirst` computations on the inner
block text: the content cut at the closing fence is the block itself with
its sandwiching newlines. -/
theorem inner_content {m Y R t : List Char}
    (ht : t = '\n' :: (Y ++ '\n' :: (fenceClose ++ R)))
    (hm : fenceClose <+: m)
    (hY : ∀ j, ¬ fenceClose <+: Y.drop j)
    (hq1 : ¬ m <+: t.drop (Y.length + 3))
    (hq2 : ¬ m <+: t.drop (Y.length + 4)) :
    beforeFirst fenceClose (beforeFirst m t) = '\n' :: Y ++ ['\n'] := by
  have hbt : findSub fenceClose t = some (Y.length + 2) := by
    rw [ht]
    exact findSub_close Y R hY
  have hmin := (findSub_some hbt).2
  have htake : t.take (Y.length + 2) = '\n' :: Y ++ ['\n'] := by
    rw [ht, show '\n' :: (Y ++ '\n' :: (fenceClose ++ R))
        = ('\n' :: Y ++ ['\n']) ++ (fenceClose ++ R) from by simp,
      List.take_left' (by simp)]
  cases hq : findSub m t with
  | none =>
    have hb1 : beforeFirst m t = t := by
      unfold beforeFirst
      rw [hq]
    rw [hb1]
    unfold beforeFirst
    rw [hbt]
    exact htake
  | some q =>
    have hq' := findSub_some hq
    have hple : Y.length + 2 ≤ q := by
      by_contra hlt
      exact hmin q (by omega) (hm.trans hq'.1)
    have hq12 : q ≠ Y.length + 3 := fun he => hq1 (he ▸ hq'.1)
    have hq22 : q ≠ Y.length + 4 := fun he => hq2 (he ▸ hq'.1)
    have hb1 : beforeFirst m t = t.take q := by
      unfold beforeFirst
      rw [hq]
    rw [hb1]
    have hfc3 : fenceClose.length = 3 := by decide
    rcases (show q = Y.length + 2 ∨ Y.length + 5 ≤ q from by omega)
      with hcq | hcq
    · have hnone : findSub fenceClose (t.take q) = none := by
        cases hf : findSub fenceClose (t.take q) with
        | none => rfl
        | some j =>
          have hj := (findSub_some hf).1
          rw [List.drop_take] at hj
          by_cases hjq : j < q
          · exact absurd (prefix_of_take hj) (hmin j (by omega))
          · rw [show q - j = 0 from by omega, List.take_zero,
              List.prefix_nil] at hj
            exact absurd hj (by decide)
      unfold beforeFirst
      rw [hnone]
      show List.take q t = _
      rw [hcq]
      exact htake
    · have hsome : findSub fenceClose (t.take q) = some (Y.length + 2) := by
        apply findSub_eq_some
        · rw [List.drop_take]
          exact prefTake.mpr ⟨(findSub_some hbt).1, by omega⟩
        · intro j hj hc
          rw [List.drop_take] at hc
          exact hmin j hj (prefix_of_take hc)
      unfold beforeFirst
      rw [hsome]
      show List.take (Y.length + 2) (List.take q t) = _
      rw [List.take_take, inf_eq_min, min_eq_left (by omega)]
      exact htake

/-! ## The canonical final reply shape

`replyShape X FOO M BAR Z` is a reply holding a docker-compose fenced block
with content `FOO` followed by an env fenced block with content `BAR`, with
arbitrary surrounding text `X`, `M`, `Z`. -/

def innerEnv (BAR Z : List Char) : List Char :=
  '\n' :: (BAR ++ '\n' :: (fenceClose ++ Z))

def innerDoc (FOO M BAR Z : List Char) : List Char :=
  '\n' :: (FOO ++ '\n' ::
    (fenceClose ++ (M ++ (envMarker ++ innerEnv BAR Z))))

def replyShape (X FOO M BAR Z : List Char) : List Char :=
  X ++ (dcMarker ++ innerDoc FOO M BAR Z)

/-- A pattern starting with a backtick is no prefix of `M ++ W` when `M` is
backtick-free and the pattern is no prefix of `W`. -/
theorem not_prefix_over_M {q M W : List Char}
    (hM : '`' ∉ M)
    (hqh : q.head? = some '`')
    (hnil : ¬ q <+: W) :
    ¬ q <+: M ++ W := by
  intro hc
  rcases prefix_append_cases hc with h | ⟨hA, hrest⟩
  · cases q with
    | nil => cases hqh
    | cons c r =>
      have hc2 := consPrefix_head h
      have hcq : c = '`' := by simpa using hqh
      rw [hcq] at hc2
      exact hM (List.mem_of_mem_head? hc2)
  · cases M with
    | nil => exact hnil (by simpa using hrest)
    | cons c M2 =>
      have h1 := consPrefix_head hA
      rw [hqh] at h1
      have : c = '`' := by simpa using h1.symm
      exact hM (this ▸ List.mem_cons_self c M2)

/-- The tail `env` of the env marker is no prefix of `M ++ W` when `M` does
not start with it and `W` starts with a backtick. -/
theorem not_env_over_M {M W : List Char}
    (hMenv : ¬ ("env".data <+: M))
    (hWh : W.head? = some '`') :
    ¬ "env".data <+: M ++ W := by
  intro hc
  rcases prefix_append_cases hc with h | ⟨hA, hrest⟩
  · exact hMenv h
  · have h33 : ("env".data).length = 3 := by decide
    by_cases h3 : M.length = 3
    · have heq : M = "env".data := hA.eq_of_length (by rw [h3]; decide)
      exact hMenv (heq ▸ List.prefix_refl _)
    · have hle := hA.length_le
      have hlt : M.length < 3 := by omega
      cases hd : "env".data.drop M.length with
      | nil =>
        have hdec : ∀ k, k < 3 → "env".data.drop k ≠ [] := by decide
        exact absurd hd (hdec M.length hlt)
      | cons c r =>
        rw [hd] at hrest
        have h1 := consPrefix_head hrest
        rw [hWh] at h1
        have hc' : c = '`' := by simpa using h1.symm
        have h2 : ("env".data.drop M.length).head? = some '`' := by
          rw [hd, hc']
          rfl
        have hdec : ∀ k, k < 3 → ("env".data.drop k).head? ≠ some '`' := by
          decide
        exact hdec M.length hlt h2

/-- The first occurrence of the env marker in the canonical reply is the
explicit one following the docker-compose block and the glue text `M`. -/
theorem findSub_env (X FOO M BAR Z : List Char)
    (hX : findSub fenceClose X = none)
    (hFOO : findSub fenceClose FOO = none)
    (hM : '`' ∉ M)
    (hMenv : ¬ ("env".data <+: M)) :
    findSub envMarker (replyShape X FOO M BAR Z)
      = some ((X ++ (dcMarker ++ (('\n' :: FOO ++ ['\n']) ++
          (fenceClose ++ M)))).length) := by
  have e1 : dcMarker.length = 17 := by decide
  have e2 : fenceClose.length = 3 := by decide
  have heqs : replyShape X FOO M BAR Z
      = (X ++ (dcMarker ++ (('\n' :: FOO ++ ['\n']) ++ (fenceClose ++ M))))
        ++ (envMarker ++ innerEnv BAR Z) := by
    simp [replyShape, innerDoc, List.append_assoc]
  have hAElen : (X ++ (dcMarker ++ (('\n' :: FOO ++ ['\n']) ++
      (fenceClose ++ M)))).length
      = X.length + (17 + ((FOO.length + 2) + (3 + M.length))) := by
    simp only [List.length_append, List.length_cons, List.length_nil, e1, e2]
    try omega
  apply findSub_eq_some
  · rw [heqs, List.drop_left]
    exact List.prefix_append _ _
  · intro j hj hc
    rw [hAElen] at hj
    rcases lt_or_ge j X.length with hr1 | hge1
    · have hTake3 : (dcMarker ++ innerDoc FOO M BAR Z).take 3 = fenceClose := by
        rw [List.take_append_of_le_length (by omega)]
        decide
      exact no_occ_before_in_clean (m := envMarker) (by decide) (by decide)
        (findSub_none hX) (by decide) (by decide) hTake3 j hr1 hc
    · obtain ⟨k, rfl⟩ : ∃ k, j = X.length + k := ⟨j - X.length, by omega⟩
      have hdropX : (replyShape X FOO M BAR Z).drop (X.length + k)
          = (dcMarker ++ innerDoc FOO M BAR Z).drop k := by
        show List.drop (X.length + k)
          (X ++ (dcMarker ++ innerDoc FOO M BAR Z)) = _
        exact List.drop_append k
      rw [hdropX] at hc
      rcases lt_or_ge k 17 with hr2 | hge2
      · rw [List.drop_append_of_le_length (by omega)] at hc
        rcases prefix_append_cases hc with h | ⟨hA, -⟩
        · have hdec : ∀ n, n < 17 → ¬ envMarker <+: dcMarker.drop n := by
            decide
          exact hdec k hr2 h
        · have hdec : ∀ n, n < 17 → ¬ dcMarker.drop n <+: envMarker := by
            decide
          exact hdec k hr2 hA
      · obtain ⟨k2, rfl⟩ : ∃ k2, k = 17 + k2 := ⟨k - 17, by omega⟩
        have hdrop2 : (dcMarker ++ innerDoc FOO M BAR Z).drop (17 + k2)
            = (innerDoc FOO M BAR Z).drop k2 := by
          rw [show (17 : Nat) + k2 = dcMarker.length + k2 from by omega]
          exact List.drop_append k2
        rw [hdrop2] at hc
        rcases lt_or_ge k2 (FOO.length + 2) with hr3 | hge3
        · have hclose : findSub fenceClose (innerDoc FOO M BAR Z)
              = some (FOO.length + 2) :=
            findSub_close FOO (M ++ (envMarker ++ innerEnv BAR Z))
              (findSub_none hFOO)
          exact (findSub_some hclose).2 k2 hr3
            ((show fenceClose <+: envMarker from by decide).trans hc)
        · obtain ⟨k3, rfl⟩ : ∃ k3, k2 = (FOO.length + 2) + k3 :=
            ⟨k2 - (FOO.length + 2), by omega⟩
          have hdrop3 : (innerDoc FOO M BAR Z).drop ((FOO.length + 2) + k3)
              = (fenceClose ++ (M ++ (envMarker ++ innerEnv BAR Z))).drop k3 := by
            rw [show innerDoc FOO M BAR Z
                = ('\n' :: FOO ++ ['\n']) ++
                  (fenceClose ++ (M ++ (envMarker ++ innerEnv BAR Z)))
                from by simp [innerDoc],
              show FOO.length + 2 + k3 = ('\n' :: FOO ++ ['\n']).length + k3
                from by simp]
            exact List.drop_append k3
          rw [hdrop3] at hc
          rcases lt_or_ge k3 3 with hr4 | hge4
          · interval_cases k3
            · rw [List.drop_zero] at hc
              have hc2 : "env".data <+: M ++ (envMarker ++ innerEnv BAR Z) := by
                rw [show envMarker = fenceClose ++ "env".data from rfl] at hc
                rcases hc with ⟨t, ht⟩
                rw [List.append_assoc] at ht
                exact ⟨t, List.append_cancel_left ht⟩
              exact not_env_over_M (M := M)
                (W := envMarker ++ innerEnv BAR Z) hMenv rfl hc2
            · rw [show (fenceClose ++ (M ++ (envMarker ++ innerEnv BAR Z))).drop 1
                  = '`' :: ('`' :: (M ++ (envMarker ++ innerEnv BAR Z)))
                  from rfl] at hc
              rw [show envMarker = '`' :: ('`' :: ('`' :: "env".data)) from rfl,
                List.cons_prefix_cons] at hc
              obtain ⟨-, hc⟩ := hc
              rw [List.cons_prefix_cons] at hc
              obtain ⟨-, hc⟩ := hc
              refine not_prefix_over_M (q := '`' :: "env".data)
                (W := envMarker ++ innerEnv BAR Z) hM rfl ?_ hc
              intro hcc
              have hcmp := prefix_take_eq (n := 2) hcc (by decide)
              rw [List.take_append_of_le_length (by decide)] at hcmp
              exact absurd hcmp (by decide)
            · rw [show (fenceClose ++ (M ++ (envMarker ++ innerEnv BAR Z))).drop 2
                  = '`' :: (M ++ (envMarker ++ innerEnv BAR Z))
                  from rfl] at hc
              rw [show envMarker = '`' :: ('`' :: ('`' :: "env".data)) from rfl,
                List.cons_prefix_cons] at hc
              obtain ⟨-, hc⟩ := hc
              refine not_prefix_over_M (q := '`' :: ('`' :: "env".data))
                (W := envMarker ++ innerEnv BAR Z) hM rfl ?_ hc
              intro hcc
              have hcmp := prefix_take_eq (n := 3) hcc (by decide)
              rw [List.take_append_of_le_length (by decide)] at hcmp
              exact absurd hcmp (by decide)
          · obtain ⟨k4, rfl⟩ : ∃ k4, k3 = 3 + k4 := ⟨k3 - 3, by omega⟩
            have hk4 : k4 < M.length := by omega
            have hdrop4 : (fenceClose ++
                (M ++ (envMarker ++ innerEnv BAR Z))).drop (3 + k4)
                = (M ++ (envMarker ++ innerEnv BAR Z)).drop k4 := by
              rw [show (3 : Nat) + k4 = fenceClose.length + k4 from by omega]
              exact List.drop_append k4
            rw [hdrop4, List.drop_append_of_le_length (by omega)] at hc
            rcases prefix_append_cases hc with h | ⟨hA, -⟩
            · have hh := consPrefix_head
                (show ('`' :: "``env".data) <+: M.drop k4 from h)
              exact hM (List.mem_of_mem_drop (List.mem_of_mem_head? hh))
            · cases hmd : M.drop k4 with
              | nil =>
                rw [List.drop_eq_nil_iff] at hmd
                omega
              | cons c r =>
                rw [hmd] at hA
                have h1 := consPrefix_head hA
                have hcq : c = '`' := by
                  have h2 : envMarker.head? = some '`' := rfl
                  rw [h2] at h1
                  exact (Option.some.inj h1).symm
                apply hM
                apply List.mem_of_mem_drop (n := k4)
                rw [hmd, hcq]
                exact List.mem_cons_self _ _

example :
    replyShape "A".data "F".data "m".data "B".data "z".data
      = "A```docker-compose\nF\n```m```env\nB\n```z".data := by decide

/-- C1: a final reply of the canonical requested shape — text `X` with no
triple backtick, then a docker-compose fenced block holding `FOO`, glue
text `M` holding no backtick and not starting with `env`, an env fenced
block holding `BAR`, and trailing text `Z` holding no backtick — yields
configuration text `FOO` and environment text `BAR` (whitespace-trimmed,
both nonempty), written respectively to `generated/docker-compose.yaml` and
`generated/.env.generated`. -/
theorem extraction_yields_blocks (X FOO M BAR Z : List Char)
    (hX : findSub fenceClose X = none)
    (hFOO : findSub fenceClose FOO = none)
    (hBAR : findSub fenceClose BAR = none)
    (hM : '`' ∉ M)
    (hMenv : ¬ ("env".data <+: M))
    (hZ : '`' ∉ Z)
    (hFOOne : pyStrip FOO ≠ [])
    (hBARne : pyStrip BAR ≠ []) :
    finalizeWrites (replyShape X FOO M BAR Z)
      = [(composePath, pyStrip FOO), (envPath, pyStrip BAR)] := by
  have hdc : findSub dcMarker (replyShape X FOO M BAR Z) = some X.length := by
    unfold replyShape
    exact findSub_marker_at (by decide) (by decide) (findSub_none hX)
      (by decide) (by decide)
  have hafter_dc : afterFirst dcMarker (replyShape X FOO M BAR Z)
      = innerDoc FOO M BAR Z := by
    unfold afterFirst
    rw [hdc]
    show List.drop (X.length + dcMarker.length)
      (replyShape X FOO M BAR Z) = _
    unfold replyShape
    rw [List.drop_append dcMarker.length, List.drop_left]
  have hdoc_content : beforeFirst fenceClose
      (beforeFirst dcMarker (innerDoc FOO M BAR Z))
      = '\n' :: FOO ++ ['\n'] := by
    apply inner_content (m := dcMarker) (Y := FOO)
      (R := M ++ (envMarker ++ innerEnv BAR Z)) rfl (by decide)
      (findSub_none hFOO)
    · have hdrop : (innerDoc FOO M BAR Z).drop (FOO.length + 3)
          = '`' :: ('`' :: (M ++ (envMarker ++ innerEnv BAR Z))) := by
        rw [show innerDoc FOO M BAR Z
            = ('\n' :: FOO ++ ['\n']) ++
              (fenceClose ++ (M ++ (envMarker ++ innerEnv BAR Z)))
            from by simp [innerDoc],
          show FOO.length + 3 = ('\n' :: FOO ++ ['\n']).length + 1
            from by simp,
          List.drop_append 1]
        rfl
      show ¬ dcMarker <+: List.drop (FOO.length + 3) (innerDoc FOO M BAR Z)
      rw [hdrop]
      intro hc
      rw [show dcMarker = '`' :: ('`' :: ('`' :: "docker-compose".data))
          from rfl, List.cons_prefix_cons] at hc
      obtain ⟨-, hc⟩ := hc
      rw [List.cons_prefix_cons] at hc
      obtain ⟨-, hc⟩ := hc
      refine not_prefix_over_M (q := '`' :: "docker-compose".data)
        (W := envMarker ++ innerEnv BAR Z) hM rfl ?_ hc
      intro hcc
      have hcmp := prefix_take_eq (n := 4) hcc (by decide)
      rw [List.take_append_of_le_length (by decide)] at hcmp
      exact absurd hcmp (by decide)
    · have hdrop : (innerDoc FOO M BAR Z).drop (FOO.length + 4)
          = '`' :: (M ++ (envMarker ++ innerEnv BAR Z)) := by
        rw [show innerDoc FOO M BAR Z
            = ('\n' :: FOO ++ ['\n']) ++
              (fenceClose ++ (M ++ (envMarker ++ innerEnv BAR Z)))
            from by simp [innerDoc],
          show FOO.length + 4 = ('\n' :: FOO ++ ['\n']).length + 2
            from by simp,
          List.drop_append 2]
        rfl
      show ¬ dcMarker <+: List.drop (FOO.length + 4) (innerDoc FOO M BAR Z)
      rw [hdrop]
      intro hc
      rw [show dcMarker = '`' :: ('`' :: ('`' :: "docker-compose".data))
          from rfl, List.cons_prefix_cons] at hc
      obtain ⟨-, hc⟩ := hc
      refine not_prefix_over_M (q := '`' :: ('`' :: "docker-compose".data))
        (W := envMarker ++ innerEnv BAR Z) hM rfl ?_ hc
      intro hcc
      have hcmp := prefix_take_eq (n := 3) hcc (by decide)
      rw [List.take_append_of_le_length (by decide)] at hcmp
      exact absurd hcmp (by decide)
  have hdcblock : fencedBlock dcMarker (replyShape X FOO M BAR Z)
      = pyStrip FOO := by
    unfold fencedBlock
    rw [hafter_dc, hdoc_content, pyStrip_sandwich]
  have henv := findSub_env X FOO M BAR Z hX hFOO hM hMenv
  have hafter_env : afterFirst envMarker (replyShape X FOO M BAR Z)
      = innerEnv BAR Z := by
    unfold afterFirst
    rw [henv]
    show List.drop ((X ++ (dcMarker ++ (('\n' :: FOO ++ ['\n']) ++
        (fenceClose ++ M)))).length + envMarker.length)
      (replyShape X FOO M BAR Z) = _
    rw [show replyShape X FOO M BAR Z
        = ((X ++ (dcMarker ++ (('\n' :: FOO ++ ['\n']) ++ (fenceClose ++ M))))
          ++ envMarker) ++ innerEnv BAR Z
        from by simp [replyShape, innerDoc, List.append_assoc]]
    rw [List.drop_left' (by rw [List.length_append])]
  have henv_content : beforeFirst fenceClose
      (beforeFirst envMarker (innerEnv BAR Z)) = '\n' :: BAR ++ ['\n'] := by
    apply inner_content (m := envMarker) (Y := BAR) (R := Z) rfl (by decide)
      (findSub_none hBAR)
    · have hdrop : (innerEnv BAR Z).drop (BAR.length + 3)
          = '`' :: ('`' :: Z) := by
        rw [show innerEnv BAR Z
            = ('\n' :: BAR ++ ['\n']) ++ (fenceClose ++ Z)
            from by simp [innerEnv],
          show BAR.length + 3 = ('\n' :: BAR ++ ['\n']).length + 1
            from by simp,
          List.drop_append 1]
        rfl
      show ¬ envMarker <+: List.drop (BAR.length + 3) (innerEnv BAR Z)
      rw [hdrop]
      intro hc
      rw [show envMarker = '`' :: ('`' :: ('`' :: "env".data)) from rfl,
        List.cons_prefix_cons] at hc
      obtain ⟨-, hc⟩ := hc
      rw [List.cons_prefix_cons] at hc
      obtain ⟨-, hc⟩ := hc
      exact hZ (List.mem_of_mem_head? (consPrefix_head hc))
    · have hdrop : (innerEnv BAR Z).drop (BAR.length + 4) = '`' :: Z := by
        rw [show innerEnv BAR Z
            = ('\n' :: BAR ++ ['\n']) ++ (fenceClose ++ Z)
            from by simp [innerEnv],
          show BAR.length + 4 = ('\n' :: BAR ++ ['\n']).length + 2
            from by simp,
          List.drop_append 2]
        rfl
      show ¬ envMarker <+: List.drop (BAR.length + 4) (innerEnv BAR Z)
      rw [hdrop]
      intro hc
      rw [show envMarker = '`' :: ('`' :: ('`' :: "env".data)) from rfl,
        List.cons_prefix_cons] at hc
      obtain ⟨-, hc⟩ := hc
      exact hZ (List.mem_of_mem_head? (consPrefix_head hc))
  have henvblock : fencedBlock envMarker (replyShape X FOO M BAR Z)
      = pyStrip BAR := by
    unfold fencedBlock
    rw [hafter_env, henv_content, pyStrip_sandwich]
  have hcontains_dc : containsSub dcMarker (replyShape X FOO M BAR Z)
      = true := by
    unfold containsSub
    rw [hdc]
    rfl
  have hcontains_env : containsSub envMarker (replyShape X FOO M BAR Z)
      = true := by
    unfold containsSub
    rw [henv]
    rfl
  have hextract : extractContents (replyShape X FOO M BAR Z)
      = (pyStrip FOO, pyStrip BAR) := by
    unfold extractContents
    rw [hcontains_dc, hcontains_env]
    simp only [if_true]
    rw [hdcblock, henvblock, if_neg (by simp [hFOOne])]
  unfold finalizeWrites
  rw [hextract]
  simp [hBARne]

theorem extraction_yields_blocks_witness :
    finalizeWrites (replyShape "Sure! ".data "services:".data "\nplus\n".data
        "KEY=value".data " bye".data)
      = [(composePath, pyStrip "services:".data),
         (envPath, pyStrip "KEY=value".data)] :=
  extraction_yields_blocks "Sure! ".data "services:".data "\nplus\n".data
    "KEY=value".data " bye".data (by decide) (by decide) (by decide)
    (by decide) (by decide) (by decide) (by decide) (by decide)

end OWUI
